import Mathlib

/-!
Verification of the resume section-extraction and rewrite-injection engine.

The development shallowly embeds the Python sources:
  * `utils/text_utils.py`   — length-fidelity enforcer
  * `services/docx_engine.py` — run-oriented extractor and injector
  * `services/pdf_engine.py`  — geometry-oriented extractor and injector
Strings are modelled as `List Char`.  Python float tolerances are modelled as
exact fractions `PyRat` (numerator/denominator); the bound computations
`int(len(original) * (1 ± tolerance))` are carried out exactly in integer
arithmetic, which agrees with IEEE double evaluation at every tolerance and
length exercised below.  Byte buffers are modelled by the structured document
values themselves (serialising and reopening is the identity on the model).
-/

/-- Python whitespace predicate used by `str.strip` / `str.split`. -/
def pyIsSpace (c : Char) : Bool :=
  c = ' ' || c = '\t' || c = '\n' || c = '\r' || c.toNat = 11 || c.toNat = 12

/-- Python `str.strip()`: drop leading and trailing whitespace. -/
def pyStrip (l : List Char) : List Char :=
  ((l.dropWhile pyIsSpace).reverse.dropWhile pyIsSpace).reverse

/-- Python `str.lower()` (ASCII case folding suffices for the sources). -/
def pyLower (l : List Char) : List Char := l.map Char.toLower

/-- Python `str.split()` with no argument: split on whitespace runs,
dropping empty words. -/
def pySplit (l : List Char) : List (List Char) :=
  (l.foldr
    (fun c acc =>
      if pyIsSpace c then [] :: acc
      else (c :: acc.headD []) :: acc.tail)
    [[]]).filter (fun w => !w.isEmpty)

/-- Python `s.rfind(" ")`: index of the last space character, `-1` if none. -/
def rfindSpace (l : List Char) : Int :=
  match l.reverse.findIdx? (fun c => c = ' ') with
  | some j => ((l.length - 1 - j : ℕ) : Int)
  | none => -1

/-- Python slice `l[:i]`, including the negative-index convention. -/
def pySliceTo (l : List Char) (i : Int) : List Char :=
  if 0 ≤ i then l.take i.toNat else l.take (l.length - (-i).toNat)

/-- An exact fraction standing for a Python float (e.g. `0.05` is `⟨1, 20⟩`). -/
structure PyRat where
  num : Int
  den : ℕ
deriving DecidableEq

/-- The default tolerance `0.05`. -/
def tolDefault : PyRat := ⟨1, 20⟩

/-- Truncating division toward zero of an integer by a natural number:
Python `int(a / b)` for exact operands. -/
def truncDiv (a : Int) (b : ℕ) : Int :=
  if a < 0 then -((((-a).toNat / b : ℕ) : Int)) else (((a.toNat / b : ℕ) : Int))

/-- `int(n * (1 + tolerance))`, computed exactly:
`n * (1 + num/den) = n * (den + num) / den`, truncated toward zero. -/
def maxLenOf (n : ℕ) (tol : PyRat) : Int :=
  truncDiv ((n : Int) * ((tol.den : Int) + tol.num)) tol.den

/-- `int(n * (1 - tolerance))`, computed exactly. -/
def minLenOf (n : ℕ) (tol : PyRat) : Int :=
  truncDiv ((n : Int) * ((tol.den : Int) - tol.num)) tol.den

/-- `text_utils.enforce_length_constraint`, translated clause by clause. -/
def enforce_length_constraint (original rewritten : List Char) (tol : PyRat) :
    List Char :=
  let max_len : Int := maxLenOf original.length tol
  let min_len : Int := minLenOf original.length tol
  if (rewritten.length : Int) > max_len then
    let truncated := pySliceTo rewritten max_len
    let last_space := rfindSpace truncated
    if last_space > min_len then pySliceTo truncated last_space
    else truncated
  else rewritten

/-- The rational value a `PyRat` denotes. -/
def PyRat.toRat (t : PyRat) : ℚ := (t.num : ℚ) / (t.den : ℚ)

example : maxLenOf 10 tolDefault = 10 := by decide
example : minLenOf 10 tolDefault = 9 := by decide
example : maxLenOf 40 tolDefault = 42 := by decide
example : minLenOf 40 tolDefault = 38 := by decide
example : enforce_length_constraint (List.replicate 10 'a')
    (List.replicate 11 'b') tolDefault = List.replicate 10 'b' := by decide
example : (⌈((1 : ℚ) + 1/20) * 10⌉ : ℤ) = 11 := by
  rw [show ((1 : ℚ) + 1/20) * 10 = 21/2 by norm_num]
  rw [Int.ceil_eq_iff]
  constructor <;> norm_num
example : (⌊((1 : ℚ) - 1/20) * 10⌋ : ℤ) = 9 := by norm_num

/-! ## DOCX model (`services/docx_engine.py`) -/

/-- A `python-docx` run: its text plus the formatting properties the engine
must not disturb (`bold` is the only one the engine reads). -/
structure DocxRun where
  text : List Char
  bold : Bool
  italic : Bool
  fontName : List Char
deriving DecidableEq

/-- A paragraph: optional style name, an inert formatting property
(alignment), and its runs.  `para.text` is the concatenation of run texts. -/
structure DocxPara where
  styleName : Option (List Char)
  alignment : ℕ
  runs : List DocxRun
deriving DecidableEq

/-- `para.text` in python-docx: concatenation of the runs' texts. -/
def paraText (p : DocxPara) : List Char := (p.runs.map DocxRun.text).flatten

/-- Python `needle in hay` on strings: contiguous substring test. -/
def isSubstring (needle : List Char) : List Char → Bool
  | [] => needle.isEmpty
  | c :: rest => needle.isPrefixOf (c :: rest) || isSubstring needle rest

def SUMMARY_KEYWORDS : List (List Char) :=
  ["summary", "professional summary", "profile", "objective", "about me",
   "overview"].map String.toList

def EXPERIENCE_KEYWORDS : List (List Char) :=
  ["experience", "work experience", "professional experience", "employment",
   "career"].map String.toList

def STOP_KEYWORDS : List (List Char) :=
  ["education", "skills", "certifications", "projects", "awards", "languages",
   "references", "volunteer"].map String.toList

def HEADING_UNION : List (List Char) :=
  SUMMARY_KEYWORDS ++ EXPERIENCE_KEYWORDS ++ STOP_KEYWORDS

/-- `docx_engine._is_heading`: heading style, or all-bold nonempty text. -/
def is_heading (p : DocxPara) : Bool :=
  if (match p.styleName with
      | some s => isSubstring ("heading".toList) (pyLower s)
      | none => false) then
    true
  else if (pyStrip (paraText p)).isEmpty then
    false
  else if (p.runs.filter (fun r => !(pyStrip r.text).isEmpty)).all
      (fun r => r.bold) then
    true
  else false

/-- A recorded span: paragraph index, run index, raw run text. -/
structure DocxEntry where
  para_idx : ℕ
  run_idx : ℕ
  text : List Char
deriving DecidableEq

/-- Result record of `extract_docx_sections`. -/
structure DocxSections where
  summary : List DocxEntry
  experience : List DocxEntry
  all_text : List Char
deriving DecidableEq

inductive Sec where
  | summary
  | experience
deriving DecidableEq

/-- `for run_idx, run in enumerate(para.runs): if run.text.strip(): ...` -/
def docxRunEntries (pidx : ℕ) : ℕ → List DocxRun → List DocxEntry
  | _, [] => []
  | ri, r :: rs =>
    if (pyStrip r.text).isEmpty then docxRunEntries pidx (ri + 1) rs
    else ⟨pidx, ri, r.text⟩ :: docxRunEntries pidx (ri + 1) rs

/-- The paragraph walk of `extract_docx_sections`: summary entries,
experience entries, and the `all_text` parts, threading `current_section`. -/
def extractGo : List DocxPara → ℕ → Option Sec →
    List DocxEntry × List DocxEntry × List (List Char)
  | [], _, _ => ([], [], [])
  | p :: ps, idx, cur =>
    let text := pyStrip (paraText p)
    if text.isEmpty then
      let r := extractGo ps (idx + 1) cur
      (r.1, r.2.1, text :: r.2.2)
    else
      let tl := pyLower text
      if is_heading p || (decide (text.length < 60) && HEADING_UNION.contains tl)
      then
        let cur2 := if SUMMARY_KEYWORDS.contains tl then some Sec.summary
          else if EXPERIENCE_KEYWORDS.contains tl then some Sec.experience
          else if STOP_KEYWORDS.contains tl then none
          else cur
        let r := extractGo ps (idx + 1) cur2
        (r.1, r.2.1, text :: r.2.2)
      else
        let r := extractGo ps (idx + 1) cur
        match cur with
        | some Sec.summary =>
            (docxRunEntries idx 0 p.runs ++ r.1, r.2.1, text :: r.2.2)
        | some Sec.experience =>
            (r.1, docxRunEntries idx 0 p.runs ++ r.2.1, text :: r.2.2)
        | none => (r.1, r.2.1, text :: r.2.2)

/-- `docx_engine.extract_docx_sections`. -/
def extract_docx_sections (paras : List DocxPara) : DocxSections :=
  let r := extractGo paras 0 none
  ⟨r.1, r.2.1, List.intercalate ['\n'] r.2.2⟩

/-- Replace the text of run `r` inside a run list (python-docx
`para.runs[r].text = t`); out-of-range indices leave the list unchanged. -/
def setRunTextInRuns : List DocxRun → ℕ → List Char → List DocxRun
  | [], _, _ => []
  | run :: rest, 0, t => ⟨t, run.bold, run.italic, run.fontName⟩ :: rest
  | run :: rest, Nat.succ r, t => run :: setRunTextInRuns rest r t

/-- `doc.paragraphs[p].runs[r].text = t`; out-of-range indices are no-ops
(the checked variant below models the `IndexError` path). -/
def setRunText : List DocxPara → ℕ → ℕ → List Char → List DocxPara
  | [], _, _, _ => []
  | para :: rest, 0, r, t =>
      ⟨para.styleName, para.alignment, setRunTextInRuns para.runs r t⟩ :: rest
  | para :: rest, Nat.succ p, r, t => para :: setRunText rest p r t

/-- Look up run `r` of paragraph `p`. -/
def getRun (paras : List DocxPara) (p r : ℕ) : Option DocxRun :=
  (paras.get? p).bind (fun para => para.runs.get? r)

/-- A rewrite request: the per-section replacement lists. -/
structure Rewrites where
  summary : List (List Char)
  experience : List (List Char)

/-- The update list of `inject_docx_rewrites`: entries paired positionally
with replacements (the `break` at `i >= len(new_texts)` is the `zip`
truncation), each replacement pushed through the length enforcer against the
extraction-time original text. -/
def docxUpdates (paras : List DocxPara) (rwS rwE : List (List Char))
    (tol : PyRat) : List (ℕ × ℕ × List Char) :=
  let secs := extract_docx_sections paras
  (secs.summary.zip rwS).map
      (fun u => (u.1.para_idx, u.1.run_idx,
                 enforce_length_constraint u.1.text u.2 tol))
    ++ (secs.experience.zip rwE).map
      (fun u => (u.1.para_idx, u.1.run_idx,
                 enforce_length_constraint u.1.text u.2 tol))

/-- One surgical replacement step. -/
def applyUpd (d : List DocxPara) (u : ℕ × ℕ × List Char) : List DocxPara :=
  setRunText d u.1 u.2.1 u.2.2

/-- `docx_engine.inject_docx_rewrites` (saving and reloading the document is
the identity on the model). -/
def inject_docx_rewrites (paras : List DocxPara) (rw : Rewrites)
    (tol : PyRat) : List DocxPara :=
  (docxUpdates paras rw.summary rw.experience tol).foldl applyUpd paras

/-- Python exceptions distinguished by the error-handling claims. -/
inductive PyErr where
  | indexError
  | structuralMismatch
deriving DecidableEq

/-- The injection loop with Python's indexing semantics made explicit:
`doc.paragraphs[para_idx]` / `para.runs[run_idx]` raise `IndexError` when out
of range. -/
def applyChecked : List (ℕ × ℕ × List Char) → List DocxPara →
    Except PyErr (List DocxPara)
  | [], d => Except.ok d
  | u :: us, d =>
    match getRun d u.1 u.2.1 with
    | some _ => applyChecked us (applyUpd d u)
    | none => Except.error PyErr.indexError

/-- The formatting properties of a run (everything except its text). -/
def runFormat (r : DocxRun) : Bool × Bool × List Char :=
  (r.bold, r.italic, r.fontName)

/-- The non-text properties of a paragraph: style, alignment, run count. -/
def paraShape (p : DocxPara) : Option (List Char) × ℕ × ℕ :=
  (p.styleName, p.alignment, p.runs.length)

/-- The (paragraph, run) coordinates targeted by an injection call. -/
def targetCoords (paras : List DocxPara) (rw : Rewrites) (tol : PyRat) :
    List (ℕ × ℕ) :=
  (docxUpdates paras rw.summary rw.experience tol).map (fun u => (u.1, u.2.1))

/-! ## PDF model (`services/pdf_engine.py`)

Geometry values (bounding boxes, baseline origins, font sizes) are opaque to
the engine except for the rectangle overlap used by redaction, so they are
modelled with exact integer coordinates.  Colors stay packed `0xRRGGBB`
naturals; the overlay records the decoded 0–255 channels (the constant
`/255` rescale is a bijection and is left implicit). -/

/-- A rectangle `(x0, y0, x1, y1)`. -/
structure Rect where
  x0 : Int
  y0 : Int
  x1 : Int
  y1 : Int
deriving DecidableEq

/-- Nonempty overlap of two rectangles. -/
def rectsIntersect (a b : Rect) : Bool :=
  max a.x0 b.x0 < min a.x1 b.x1 && max a.y0 b.y0 < min a.y1 b.y1

/-- A text span of the `page.get_text("dict")` layout. -/
structure PdfSpan where
  text : List Char
  bbox : Rect
  size : Int
  font : List Char
  color : ℕ
  origin : Int × Int
deriving DecidableEq

structure PdfLine where
  spans : List PdfSpan
deriving DecidableEq

/-- A layout block; `btype ≠ 0` blocks (images) carry no text lines. -/
structure PdfBlock where
  btype : Int
  lines : List PdfLine
deriving DecidableEq

/-- Text drawn by `page.insert_text` during the overlay phase. -/
structure PdfOverlay where
  origin : Int × Int
  text : List Char
  fontname : List Char
  fontsize : Int
  color : ℕ × ℕ × ℕ
deriving DecidableEq

structure PdfPage where
  blocks : List PdfBlock
  overlays : List PdfOverlay
deriving DecidableEq

/-- An extraction record of `extract_pdf_sections`. -/
structure PdfEntry where
  page : ℕ
  rect : Rect
  text : List Char
  fontsize : Int
  fontname : List Char
  color : ℕ
  block_idx : ℕ
  origin : Int × Int
deriving DecidableEq

structure PdfSections where
  summary : List PdfEntry
  experience : List PdfEntry
  all_text : List Char
deriving DecidableEq

inductive PSec where
  | summary
  | experience
  | stop
deriving DecidableEq

def summaryTriggers : List (List Char) :=
  ["summary", "profile", "objective", "about", "overview"].map String.toList

def experienceTriggers : List (List Char) :=
  ["experience", "history", "employment", "work", "career"].map String.toList

def stopTriggers : List (List Char) :=
  ["education", "skills", "certs", "projects", "awards", "references",
   "languages", "links", "interests"].map String.toList

/-- `re.sub(r'[^a-z0-9 ]', ' ', t)` on an already lower-cased string. -/
def subNonAlnum (l : List Char) : List Char :=
  l.map (fun c =>
    if ('a' ≤ c && c ≤ 'z') || ('0' ≤ c && c ≤ '9') || c = ' ' then c
    else ' ')

/-- `pdf_engine._match_section`. -/
def match_section (text : List Char) : Option PSec :=
  let t := pyStrip (subNonAlnum (pyLower (pyStrip text)))
  if t.isEmpty || decide (t.length > 50) then none
  else
    let words := pySplit t
    if words.any (fun w => summaryTriggers.contains w) then some PSec.summary
    else if words.any (fun w => experienceTriggers.contains w) then
      some PSec.experience
    else if words.any (fun w => stopTriggers.contains w) then some PSec.stop
    else none

/-- The lines of a block list, tagged with page number and block index;
non-text blocks are skipped but still counted by `enumerate`. -/
def blockLines (pn : ℕ) : ℕ → List PdfBlock → List (ℕ × ℕ × PdfLine)
  | _, [] => []
  | bi, b :: bs =>
    (if b.btype = 0 then b.lines.map (fun l => (pn, bi, l)) else [])
      ++ blockLines pn (bi + 1) bs

/-- All text lines of the document in reading order. -/
def pagesLines : ℕ → List PdfPage → List (ℕ × ℕ × PdfLine)
  | _, [] => []
  | pn, pg :: pgs => blockLines pn 0 pg.blocks ++ pagesLines (pn + 1) pgs

/-- The extraction record built from one span. -/
def spanEntry (pn bi : ℕ) (s : PdfSpan) : PdfEntry :=
  ⟨pn, s.bbox, s.text, s.size, s.font, s.color, bi, s.origin⟩

/-- The line walk of `extract_pdf_sections`, threading `current_section`:
summary entries, experience entries, and the `all_text` parts. -/
def goPdf : List (ℕ × ℕ × PdfLine) → Option Sec →
    List PdfEntry × List PdfEntry × List (List Char)
  | [], _ => ([], [], [])
  | t :: rest, cur =>
    let line_text := pyStrip ((t.2.2.spans.map PdfSpan.text).flatten)
    match match_section line_text with
    | some m =>
        goPdf rest
          (match m with
           | PSec.summary => some Sec.summary
           | PSec.experience => some Sec.experience
           | PSec.stop => none)
    | none =>
      match cur with
      | some sec =>
        let keep := t.2.2.spans.filter (fun s => !(pyStrip s.text).isEmpty)
        let r := goPdf rest cur
        (match sec with
         | Sec.summary =>
             (keep.map (spanEntry t.1 t.2.1) ++ r.1, r.2.1,
              keep.map PdfSpan.text ++ r.2.2)
         | Sec.experience =>
             (r.1, keep.map (spanEntry t.1 t.2.1) ++ r.2.1,
              keep.map PdfSpan.text ++ r.2.2))
      | none =>
        let r := goPdf rest cur
        (r.1, r.2.1, t.2.2.spans.map PdfSpan.text ++ r.2.2)

/-- `pdf_engine.extract_pdf_sections`. -/
def extract_pdf_sections (d : List PdfPage) : PdfSections :=
  let r := goPdf (pagesLines 0 d) none
  ⟨r.1, r.2.1, List.intercalate ['\n'] r.2.2⟩

/-- `pdf_engine._map_font`. -/
def map_font (fontname : List Char) : List Char :=
  let name := pyLower fontname
  let has := fun (k : String) => isSubstring k.toList name
  if has ("bold") || has ("heavy") || has ("black") then
    if has ("italic") || has ("oblique") then ("tibo".toList) else ("helv".toList)
  else if has ("italic") || has ("oblique") then ("tiit".toList)
  else if has ("times") || has ("serif") || has ("georgia") || has ("garamond") then
    ("tiro".toList)
  else ("helv".toList)

/-- `0xRRGGBB` integer color decoded into its three 0–255 channels. -/
def decodeColor (c : ℕ) : ℕ × ℕ × ℕ :=
  ((c >>> 16) % 256, (c >>> 8) % 256, c % 256)

/-- The redaction rectangles requested by phase 1 of `inject_pdf_rewrites`:
one per span paired with a replacement (the `break` truncates positionally).
-/
def pdfRedactions (secs : PdfSections) (rwS rwE : List (List Char)) :
    List (ℕ × Rect) :=
  (secs.summary.zip rwS).map (fun u => (u.1.page, u.1.rect))
    ++ (secs.experience.zip rwE).map (fun u => (u.1.page, u.1.rect))

/-- `page.apply_redactions`: erase every span whose bounding box overlaps a
redaction rectangle of its page (modelled library behaviour). -/
def applyReds (reds : List (ℕ × Rect)) : ℕ → List PdfPage → List PdfPage
  | _, [] => []
  | pn, pg :: pgs =>
    ⟨pg.blocks.map (fun b =>
        ⟨b.btype, b.lines.map (fun l =>
            ⟨l.spans.filter (fun s =>
                !(reds.any (fun pr =>
                    pr.1 == pn && rectsIntersect s.bbox pr.2)))⟩)⟩),
     pg.overlays⟩ :: applyReds reds (pn + 1) pgs

/-- `page.insert_text` at page `pn`; out-of-range pages are no-ops (the
checked variant below models the error path). -/
def insertOverlay : List PdfPage → ℕ → PdfOverlay → List PdfPage
  | [], _, _ => []
  | pg :: pgs, 0, ov => ⟨pg.blocks, pg.overlays ++ [ov]⟩ :: pgs
  | pg :: pgs, Nat.succ n, ov => pg :: insertOverlay pgs n ov

/-- The overlay drawn for one extraction entry and its replacement. -/
def entryOverlay (tol : PyRat) (u : PdfEntry × List Char) : ℕ × PdfOverlay :=
  (u.1.page,
   ⟨u.1.origin, enforce_length_constraint u.1.text u.2 tol,
    map_font u.1.fontname, u.1.fontsize, decodeColor u.1.color⟩)

/-- The overlay insertions of phase 2, positionally paired per section. -/
def overlayUpdates (secs : PdfSections) (rwS rwE : List (List Char))
    (tol : PyRat) : List (ℕ × PdfOverlay) :=
  (secs.summary.zip rwS).map (entryOverlay tol)
    ++ (secs.experience.zip rwE).map (entryOverlay tol)

/-- Phase 2: draw every overlay into the (already redacted) document. -/
def overlayPhase (d : List PdfPage) (secs : PdfSections)
    (rwS rwE : List (List Char)) (tol : PyRat) : List PdfPage :=
  (overlayUpdates secs rwS rwE tol).foldl
    (fun acc u => insertOverlay acc u.1 u.2) d

/-- `pdf_engine.inject_pdf_rewrites`, mirroring the code's control flow:
extract from the input, commit all redactions, re-serialise (identity on the
model), then re-extract for positioning FROM THE ORIGINAL INPUT BUFFER
(`extract_pdf_sections(file_path_or_bytes)`) and draw the overlays. -/
def inject_pdf_rewrites (d : List PdfPage) (rw : Rewrites) (tol : PyRat) :
    List PdfPage :=
  let secs1 := extract_pdf_sections d
  let reds := pdfRedactions secs1 rw.summary rw.experience
  let redacted := applyReds reds 0 d
  let secs2 := extract_pdf_sections d
  overlayPhase redacted secs2 rw.summary rw.experience tol

/-- Modelled from the spec: the overlay phase of the geometry injector as
section 4.3 describes it, re-deriving span coordinates against the NEW
post-redaction buffer instead of the original input. -/
def inject_pdf_rewrites_specOverlay (d : List PdfPage) (rw : Rewrites)
    (tol : PyRat) : List PdfPage :=
  let secs1 := extract_pdf_sections d
  let reds := pdfRedactions secs1 rw.summary rw.experience
  let redacted := applyReds reds 0 d
  let secs2 := extract_pdf_sections redacted
  overlayPhase redacted secs2 rw.summary rw.experience tol

/-- The overlay loop with `doc2[entry["page"]]` indexing made explicit:
a page index out of range raises `IndexError`. -/
def overlayChecked : List (ℕ × PdfOverlay) → List PdfPage →
    Except PyErr (List PdfPage)
  | [], d => Except.ok d
  | u :: us, d =>
    if u.1 < d.length then overlayChecked us (insertOverlay d u.1 u.2)
    else Except.error PyErr.indexError

/-! ## Bridging lemmas for the length bounds -/

lemma truncDiv_natCast (p b : ℕ) : truncDiv (p : ℤ) b = ((p / b : ℕ) : ℤ) := by
  unfold truncDiv
  rw [if_neg (by exact_mod_cast Int.not_lt.mpr (Int.ofNat_nonneg p))]
  simp

lemma natCast_div_int (p b : ℕ) : ((p / b : ℕ) : ℤ) = (p : ℤ) / (b : ℤ) :=
  Int.natCast_ediv p b

/-- With a nonnegative tolerance, `max_len` is the floor of
`(1 + tolerance) * n`. -/
lemma maxLenOf_eq_floor (n : ℕ) (tol : PyRat) (hden : 0 < tol.den)
    (hnum : 0 ≤ tol.num) :
    maxLenOf n tol = ⌊((1 : ℚ) + tol.toRat) * (n : ℚ)⌋ := by
  obtain ⟨mi, d⟩ := tol
  obtain ⟨m, rfl⟩ : ∃ m : ℕ, mi = (m : ℤ) :=
    ⟨mi.toNat, (Int.toNat_of_nonneg hnum).symm⟩
  have hd : d ≠ 0 := by
    intro h0
    rw [h0] at hden
    exact Nat.lt_irrefl 0 hden
  have hd0 : ((d : ℕ) : ℚ) ≠ 0 := Nat.cast_ne_zero.mpr hd
  have hval : ((1 : ℚ) + PyRat.toRat ⟨(m : ℤ), d⟩) * (n : ℚ)
      = ((n * (d + m) : ℕ) : ℚ) / ((d : ℕ) : ℚ) := by
    unfold PyRat.toRat
    push_cast
    field_simp
    ring
  rw [hval, Rat.floor_natCast_div_natCast, ← natCast_div_int]
  unfold maxLenOf
  have harg : ((n : ℤ) * (((d : ℕ) : ℤ) + ((m : ℕ) : ℤ)))
      = ((n * (d + m) : ℕ) : ℤ) := by
    push_cast
    ring
  show truncDiv ((n : ℤ) * (((d : ℕ) : ℤ) + ((m : ℕ) : ℤ))) d = _
  rw [harg, truncDiv_natCast]

/-- With a tolerance between 0 and 1, `min_len` is the floor of
`(1 - tolerance) * n`. -/
lemma minLenOf_eq_floor (n : ℕ) (tol : PyRat) (hden : 0 < tol.den)
    (hnum : 0 ≤ tol.num) (hnum1 : tol.num ≤ (tol.den : ℤ)) :
    minLenOf n tol = ⌊((1 : ℚ) - tol.toRat) * (n : ℚ)⌋ := by
  obtain ⟨mi, d⟩ := tol
  obtain ⟨m, rfl⟩ : ∃ m : ℕ, mi = (m : ℤ) :=
    ⟨mi.toNat, (Int.toNat_of_nonneg hnum).symm⟩
  have hd : d ≠ 0 := by
    intro h0
    rw [h0] at hden
    exact Nat.lt_irrefl 0 hden
  have hd0 : ((d : ℕ) : ℚ) ≠ 0 := Nat.cast_ne_zero.mpr hd
  have hmd : m ≤ d := by
    have h1 : ((m : ℕ) : ℤ) ≤ ((d : ℕ) : ℤ) := hnum1
    exact_mod_cast h1
  have hval : ((1 : ℚ) - PyRat.toRat ⟨(m : ℤ), d⟩) * (n : ℚ)
      = ((n * (d - m) : ℕ) : ℚ) / ((d : ℕ) : ℚ) := by
    unfold PyRat.toRat
    push_cast [Nat.cast_sub hmd]
    field_simp
    ring
  rw [hval, Rat.floor_natCast_div_natCast, ← natCast_div_int]
  unfold minLenOf
  have harg : ((n : ℤ) * (((d : ℕ) : ℤ) - ((m : ℕ) : ℤ)))
      = ((n * (d - m) : ℕ) : ℤ) := by
    push_cast [Nat.cast_sub hmd]
    ring
  show truncDiv ((n : ℤ) * (((d : ℕ) : ℤ) - ((m : ℕ) : ℤ))) d = _
  rw [harg, truncDiv_natCast]

lemma pySliceTo_length_le (l : List Char) (i : Int) :
    (pySliceTo l i).length ≤ l.length := by
  unfold pySliceTo
  split <;> simp [List.length_take]

/-! ## Claims about the length-fidelity enforcer -/

/-- Claim C2, counterexample: with a 10-character original and tolerance
0.05, an 11-character candidate lies inside the claimed band
`[floor(0.95*10), ceil(1.05*10)] = [9, 11]`, yet the enforcer truncates it
(the code's upper cut-off is `int(...)`, i.e. the floor 10, not the
ceiling 11). -/
theorem claim_C2_counterexample :
    ⌊((1 : ℚ) - tolDefault.toRat) * ((List.replicate 10 'a').length : ℚ)⌋
        ≤ ((List.replicate 11 'b').length : ℤ)
    ∧ ((List.replicate 11 'b').length : ℤ)
        ≤ ⌈((1 : ℚ) + tolDefault.toRat) * ((List.replicate 10 'a').length : ℚ)⌉
    ∧ enforce_length_constraint (List.replicate 10 'a')
        (List.replicate 11 'b') tolDefault ≠ List.replicate 11 'b' := by
  refine ⟨?_, ?_, by decide⟩
  · simp only [List.length_replicate, tolDefault, PyRat.toRat]
    push_cast
    norm_num
  · simp only [List.length_replicate, tolDefault, PyRat.toRat]
    push_cast
    rw [show ((1 : ℚ) + 1 / 20) * 10 = 21 / 2 by norm_num]
    have hc : (⌈(21 / 2 : ℚ)⌉ : ℤ) = 11 := by
      rw [Int.ceil_eq_iff]
      constructor <;> norm_num
    rw [hc]

/-- Claim C2 (amended): if the candidate's length lies within
`[int((1-tol)*len), int((1+tol)*len)]` — the code's truncating-`int` bounds,
whose upper end is the FLOOR of `(1+tol)*len`, not its ceiling — the
enforcer returns the candidate unchanged.  The conjuncts record that for a
tolerance in `[0, 1]` these bounds are exactly the floors of the band
endpoints. -/
theorem claim_C2_theorem (o c : List Char) (tol : PyRat)
    (hden : 0 < tol.den) (hnum : 0 ≤ tol.num)
    (hnum1 : tol.num ≤ (tol.den : ℤ))
    (hlow : minLenOf o.length tol ≤ (c.length : ℤ))
    (hup : (c.length : ℤ) ≤ maxLenOf o.length tol) :
    enforce_length_constraint o c tol = c
    ∧ maxLenOf o.length tol = ⌊((1 : ℚ) + tol.toRat) * (o.length : ℚ)⌋
    ∧ minLenOf o.length tol = ⌊((1 : ℚ) - tol.toRat) * (o.length : ℚ)⌋ := by
  refine ⟨?_, maxLenOf_eq_floor o.length tol hden hnum,
          minLenOf_eq_floor o.length tol hden hnum hnum1⟩
  simp only [enforce_length_constraint]
  rw [if_neg (Int.not_lt.mpr hup)]

/-- Witness for `claim_C2_theorem` at a concrete in-band input. -/
theorem claim_C2_witness :
    enforce_length_constraint ("hello".toList) ("salut".toList) tolDefault
      = "salut".toList :=
  (claim_C2_theorem ("hello".toList) ("salut".toList) tolDefault
    (by decide) (by decide) (by decide) (by decide) (by decide)).1

/-- Claim C3, counterexample: 40-character original, 60-character candidate,
tolerance 0.05 (band [38, 42]), whose only space inside the first 42
characters sits at index 38.  The boundary is AT the lower bound, so the
claim demands the boundary truncation (38 characters), but the code's test
is strict (`last_space > min_len`) and returns the 42-character hard cut —
which is also not a word-boundary truncation. -/
theorem claim_C3_counterexample :
    (List.replicate 38 'b' ++ ' ' :: List.replicate 21 'c').length = 60
    ∧ minLenOf 40 tolDefault = 38
    ∧ maxLenOf 40 tolDefault = 42
    ∧ rfindSpace (pySliceTo
        (List.replicate 38 'b' ++ ' ' :: List.replicate 21 'c') 42) = 38
    ∧ enforce_length_constraint (List.replicate 40 'a')
        (List.replicate 38 'b' ++ ' ' :: List.replicate 21 'c') tolDefault
      = pySliceTo (List.replicate 38 'b' ++ ' ' :: List.replicate 21 'c') 42
    ∧ pySliceTo (List.replicate 38 'b' ++ ' ' :: List.replicate 21 'c') 42
      ≠ pySliceTo (List.replicate 38 'b' ++ ' ' :: List.replicate 21 'c') 38
    := by
  refine ⟨by decide, by decide, by decide, by decide, by decide, by decide⟩

/-- Claim C3 (amended): when the candidate exceeds `max_len`, the enforcer
hard-truncates to `max_len` characters, finds the last space at or before
that cut, and returns the boundary truncation only when the boundary index
is STRICTLY above `min_len` (a boundary exactly at the lower bound yields
the hard truncation); in the 40-character/tolerance-0.05 scenario the result
never exceeds 42 characters, but need not end at a word boundary. -/
theorem claim_C3_theorem (o c : List Char) (tol : PyRat)
    (h : (c.length : ℤ) > maxLenOf o.length tol) :
    (rfindSpace (pySliceTo c (maxLenOf o.length tol)) > minLenOf o.length tol
      → enforce_length_constraint o c tol
        = pySliceTo (pySliceTo c (maxLenOf o.length tol))
            (rfindSpace (pySliceTo c (maxLenOf o.length tol))))
    ∧ (rfindSpace (pySliceTo c (maxLenOf o.length tol)) ≤ minLenOf o.length tol
      → enforce_length_constraint o c tol
        = pySliceTo c (maxLenOf o.length tol))
    ∧ (o.length = 40 → tol = tolDefault →
        (enforce_length_constraint o c tol).length ≤ 42) := by
  have hbody : enforce_length_constraint o c tol
      = if rfindSpace (pySliceTo c (maxLenOf o.length tol))
            > minLenOf o.length tol
        then pySliceTo (pySliceTo c (maxLenOf o.length tol))
            (rfindSpace (pySliceTo c (maxLenOf o.length tol)))
        else pySliceTo c (maxLenOf o.length tol) := by
    simp only [enforce_length_constraint]
    rw [if_pos h]
  refine ⟨?_, ?_, ?_⟩
  · intro hsp
    rw [hbody, if_pos hsp]
  · intro hsp
    rw [hbody, if_neg (Int.not_lt.mpr hsp)]
  · intro h40 htol
    rw [hbody]
    have h42 : maxLenOf o.length tol = 42 := by
      rw [h40, htol]
      decide
    have hlen : (pySliceTo c (maxLenOf o.length tol)).length ≤ 42 := by
      rw [h42]
      calc (pySliceTo c (42 : ℤ)).length = (c.take 42).length := by
            simp [pySliceTo]
        _ ≤ 42 := by simp
    split
    · exact le_trans (pySliceTo_length_le _ _) hlen
    · exact hlen

/-- Witness for `claim_C3_theorem`: a 6-character spaceless candidate
against a 4-character original is hard-truncated to 4 characters. -/
theorem claim_C3_witness :
    enforce_length_constraint (List.replicate 4 'a') (List.replicate 6 'b')
      tolDefault = List.replicate 4 'b' := by
  have h := (claim_C3_theorem (List.replicate 4 'a') (List.replicate 6 'b')
    tolDefault (by decide)).2.1 (by decide)
  rw [h]
  decide

/-- Claim C9: with an empty original string both bounds are 0, so the
enforcer returns the empty string for every candidate and tolerance (a
non-empty candidate is hard-truncated to zero characters). -/
theorem claim_C9_theorem (c : List Char) (tol : PyRat) :
    enforce_length_constraint [] c tol = [] := by
  have hmax : maxLenOf (List.length ([] : List Char)) tol = 0 := by
    simp [maxLenOf, truncDiv]
  have hmin : minLenOf (List.length ([] : List Char)) tol = 0 := by
    simp [minLenOf, truncDiv]
  simp only [enforce_length_constraint, hmax, hmin]
  split
  · simp [pySliceTo, rfindSpace]
  · rename_i hlen
    cases c with
    | nil => rfl
    | cons a as => simp at hlen

/-! ## Concrete documents used by the claims -/

/-- A plain (non-bold, unstyled) single-run paragraph. -/
def plainPara (s : String) : DocxPara := ⟨none, 0, [⟨s.toList, false, false, []⟩]⟩

/-- A 70-character all-bold paragraph with no heading style and no
trigger-vocabulary text. -/
def exBoldPara : DocxPara :=
  ⟨none, 0, [⟨List.replicate 70 'a', true, false, []⟩]⟩

/-- Experience heading followed by three plain content paragraphs. -/
def exDocxDoc : List DocxPara :=
  [plainPara ("Experience"), plainPara ("Alpha line one"),
   plainPara ("Beta line two"), plainPara ("Gamma line xyz")]

example : (extract_docx_sections exDocxDoc).summary = [] := by decide
example : (extract_docx_sections exDocxDoc).experience =
    [⟨1, 0, "Alpha line one".toList⟩, ⟨2, 0, "Beta line two".toList⟩,
     ⟨3, 0, "Gamma line xyz".toList⟩] := by decide

/-! ## Claim C4: the bold heading rule -/

/-- Claim C4, counterexample: a paragraph with no heading style, text of
length 70 (at or above the 60-character threshold) matching no trigger
vocabulary, whose single run is bold, IS classified as a heading — and when
it appears inside an Experience region the extractor skips it instead of
recording it as content.  The bold rule of `_is_heading` applies no length
threshold. -/
theorem claim_C4_counterexample :
    exBoldPara.styleName = none
    ∧ (pyStrip (paraText exBoldPara)).length = 70
    ∧ HEADING_UNION.contains (pyLower (pyStrip (paraText exBoldPara))) = false
    ∧ is_heading exBoldPara = true
    ∧ (extract_docx_sections [plainPara ("Experience"), exBoldPara]).experience
        = [] := by
  refine ⟨by decide, by decide, by decide, by decide, by decide⟩

/-- Claim C4 (amended): the bold rule carries no length threshold — every
paragraph whose stripped text is nonempty and whose every run with nonempty
stripped text is bold is classified as a heading by `_is_heading`,
regardless of its length (the fixed 60-character threshold applies only to
the trigger-vocabulary rule in `extract_docx_sections`). -/
theorem claim_C4_theorem (p : DocxPara)
    (htext : (pyStrip (paraText p)).isEmpty = false)
    (hbold : ∀ r ∈ p.runs, (pyStrip r.text).isEmpty = false → r.bold = true) :
    is_heading p = true := by
  unfold is_heading
  split
  · rfl
  · have hall : ((p.runs.filter (fun r => !(pyStrip r.text).isEmpty)).all
        (fun r => r.bold)) = true := by
      rw [List.all_eq_true]
      intro r hr
      have hmem := List.mem_filter.mp hr
      have := hbold r hmem.1 (by simpa using hmem.2)
      simpa using this
    rw [if_neg (by simp [htext]), if_pos hall]

/-- Witness for `claim_C4_theorem`: a short all-bold paragraph. -/
theorem claim_C4_witness :
    is_heading ⟨none, 0, [⟨"Key Skills".toList, true, false, []⟩]⟩ = true :=
  claim_C4_theorem ⟨none, 0, [⟨"Key Skills".toList, true, false, []⟩]⟩
    (by decide) (by decide)

/-! ## Claim C5: coverage of `all_text` -/

lemma extractGo_parts : ∀ (ps : List DocxPara) (idx : ℕ) (cur : Option Sec),
    (extractGo ps idx cur).2.2 = ps.map (fun p => pyStrip (paraText p)) := by
  intro ps
  induction ps with
  | nil =>
    intro idx cur
    rfl
  | cons p ps ih =>
    intro idx cur
    simp only [extractGo, List.map_cons]
    split
    · simp [ih]
    · split
      · simp [ih]
      · split <;> simp [ih]

/-- Claim C5 (amended, run-oriented half): for the DOCX extractor,
`all_text` is exactly the newline-join of every paragraph's stripped text,
headings and empty paragraphs included — nothing is lost or duplicated with
respect to the per-paragraph stripped texts. -/
theorem claim_C5_theorem (paras : List DocxPara) :
    (extract_docx_sections paras).all_text
      = List.intercalate ['\n'] (paras.map (fun p => pyStrip (paraText p))) := by
  have h := extractGo_parts paras 0 none
  simp only [extract_docx_sections]
  rw [h]

/-- A one-page PDF: a "Summary" heading line above a "Led team" content
line. -/
def exPdfSpan1 : PdfSpan :=
  ⟨"Summary".toList, ⟨0, 0, 100, 10⟩, 11, "helv".toList, 0, (0, 10)⟩

def exPdfSpan2 : PdfSpan :=
  ⟨"Led team".toList, ⟨0, 20, 100, 30⟩, 11, "helv".toList, 0, (0, 30)⟩

def exPdfDoc : List PdfPage :=
  [⟨[⟨0, [⟨[exPdfSpan1]⟩, ⟨[exPdfSpan2]⟩]⟩], []⟩]

def exPdfRw : Rewrites := ⟨["Led crew".toList], []⟩

example : (extract_pdf_sections exPdfDoc).summary =
    [⟨0, ⟨0, 20, 100, 30⟩, "Led team".toList, 11, "helv".toList, 0, 0,
      (0, 30)⟩] := by decide
example : (extract_pdf_sections exPdfDoc).experience = [] := by decide

/-- Every span text of a PDF document in reading order. -/
def allPdfSpanTexts (d : List PdfPage) : List (List Char) :=
  ((pagesLines 0 d).map (fun t => t.2.2.spans.map PdfSpan.text)).flatten

/-- Claim C5, counterexample (geometry half): in the PDF extractor a
detected heading line is skipped BEFORE the `all_text` accumulation, so its
text is absent from `all_text`: concatenating all spans of the document in
reading order yields "Summary\nLed team", while `all_text` is just
"Led team" — the heading's characters are lost. -/
theorem claim_C5_counterexample :
    allPdfSpanTexts exPdfDoc = ["Summary".toList, "Led team".toList]
    ∧ (extract_pdf_sections exPdfDoc).all_text = "Led team".toList
    ∧ List.intercalate ['\n'] (allPdfSpanTexts exPdfDoc)
        ≠ (extract_pdf_sections exPdfDoc).all_text := by
  refine ⟨by decide, by decide, by decide⟩

/-! ## Claim C1: which buffer the overlay coordinates come from -/

/-- Claim C1 (amended): `inject_pdf_rewrites` runs the overlay phase with
the sections extracted from the ORIGINAL input buffer
(`extract_pdf_sections(file_path_or_bytes)`), drawing into the reopened
post-redaction document; the overlay coordinates are NOT re-derived from
the post-redaction buffer. -/
theorem claim_C1_theorem (d : List PdfPage) (rw : Rewrites) (tol : PyRat) :
    inject_pdf_rewrites d rw tol
      = overlayPhase
          (applyReds
            (pdfRedactions (extract_pdf_sections d) rw.summary rw.experience)
            0 d)
          (extract_pdf_sections d) rw.summary rw.experience tol := rfl

/-- Claim C1, counterexample: on a one-page document whose "Led team" span
is redacted, re-extracting from the post-redaction buffer finds no summary
spans (the text is gone), so the spec's overlay variant draws nothing,
while the code (re-extracting from the original buffer) draws the
replacement; the two results differ. -/
theorem claim_C1_counterexample :
    (extract_pdf_sections
        (applyReds
          (pdfRedactions (extract_pdf_sections exPdfDoc) exPdfRw.summary
            exPdfRw.experience) 0 exPdfDoc)).summary = []
    ∧ (inject_pdf_rewrites exPdfDoc exPdfRw tolDefault).map PdfPage.overlays
        = [[⟨(0, 30), "Led crew".toList, "helv".toList, 11, (0, 0, 0)⟩]]
    ∧ (inject_pdf_rewrites_specOverlay exPdfDoc exPdfRw tolDefault).map
        PdfPage.overlays = [[]]
    ∧ inject_pdf_rewrites exPdfDoc exPdfRw tolDefault
        ≠ inject_pdf_rewrites_specOverlay exPdfDoc exPdfRw tolDefault := by
  refine ⟨by decide, by decide, by decide, by decide⟩

/-! ## Claim C7: positional and deficit alignment -/

/-- Claim C7 (amended): pairing is positional per section; with three
experience spans and replacements `[r0, r1]`, span 0 receives
`enforce_length_constraint(s0, r0)` (which is `r0` itself whenever `r0`
fits the band), span 1 receives the enforced `r1`, and the deficit span 2
keeps its original text; excess replacement entries beyond the span list
are ignored. -/
theorem claim_C7_theorem (r0 r1 r2 r3 : List Char) (tol : PyRat) :
    inject_docx_rewrites exDocxDoc ⟨[], [r0, r1]⟩ tol
      = [plainPara ("Experience"),
         ⟨none, 0, [⟨enforce_length_constraint ("Alpha line one".toList) r0 tol,
                     false, false, []⟩]⟩,
         ⟨none, 0, [⟨enforce_length_constraint ("Beta line two".toList) r1 tol,
                     false, false, []⟩]⟩,
         plainPara ("Gamma line xyz")]
    ∧ inject_docx_rewrites exDocxDoc ⟨[], [r0, r1, r2, r3]⟩ tol
      = inject_docx_rewrites exDocxDoc ⟨[], [r0, r1, r2]⟩ tol := by
  constructor
  · rfl
  · rfl

/-- Claim C7, counterexample: an over-long replacement is NOT written
verbatim — `r0` of 20 spaceless characters against the 14-character span
"Alpha line one" is hard-truncated by the enforcer to 14 characters, so
"s0 becomes r0" fails as literally stated. -/
theorem claim_C7_counterexample :
    getRun (inject_docx_rewrites exDocxDoc ⟨[], [List.replicate 20 'x']⟩
        tolDefault) 1 0
      = some ⟨List.replicate 14 'x', false, false, []⟩
    ∧ List.replicate 14 'x' ≠ List.replicate 20 'x' := by
  refine ⟨by decide, by decide⟩

/-! ## Frame lemmas for the run injector -/

lemma length_setRunTextInRuns (runs : List DocxRun) (r : ℕ) (t : List Char) :
    (setRunTextInRuns runs r t).length = runs.length := by
  induction runs generalizing r with
  | nil => rfl
  | cons a as ih =>
    cases r with
    | zero => rfl
    | succ r => simp [setRunTextInRuns, ih]

lemma get?_setRunTextInRuns (runs : List DocxRun) (r : ℕ) (t : List Char)
    (j : ℕ) :
    (setRunTextInRuns runs r t).get? j
      = if r = j then
          (runs.get? j).map (fun run => ⟨t, run.bold, run.italic, run.fontName⟩)
        else runs.get? j := by
  induction runs generalizing r j with
  | nil => simp [setRunTextInRuns]
  | cons a as ih =>
    cases r with
    | zero =>
      cases j with
      | zero => simp [setRunTextInRuns]
      | succ j => simp [setRunTextInRuns]
    | succ r =>
      cases j with
      | zero => simp [setRunTextInRuns]
      | succ j => simpa [setRunTextInRuns] using ih r j

lemma setRunText_get? (d : List DocxPara) (p r : ℕ) (t : List Char) (q : ℕ) :
    (setRunText d p r t).get? q
      = if p = q then
          (d.get? q).map (fun para =>
            ⟨para.styleName, para.alignment, setRunTextInRuns para.runs r t⟩)
        else d.get? q := by
  induction d generalizing p q with
  | nil => simp [setRunText]
  | cons a as ih =>
    cases p with
    | zero =>
      cases q with
      | zero => simp [setRunText]
      | succ q => simp [setRunText]
    | succ p =>
      cases q with
      | zero => simp [setRunText]
      | succ q => simpa [setRunText] using ih p q

lemma getRun_setRunText (d : List DocxPara) (p r : ℕ) (t : List Char)
    (q s : ℕ) :
    getRun (setRunText d p r t) q s
      = if p = q ∧ r = s then
          (getRun d q s).map (fun run => ⟨t, run.bold, run.italic, run.fontName⟩)
        else getRun d q s := by
  unfold getRun
  rw [setRunText_get?]
  by_cases hp : p = q
  · rw [if_pos hp]
    cases hd : d.get? q with
    | none => simp [hp]
    | some para =>
      simp only [Option.map_some', Option.some_bind]
      rw [get?_setRunTextInRuns]
      by_cases hr : r = s
      · rw [if_pos hr, if_pos ⟨hp, hr⟩]
      · rw [if_neg hr, if_neg (fun hc => hr hc.2)]
  · rw [if_neg hp, if_neg (fun hc => hp hc.1)]

lemma foldl_applyUpd_untouched (us : List (ℕ × ℕ × List Char)) (p r : ℕ) :
    ∀ d : List DocxPara, (∀ u ∈ us, ¬(u.1 = p ∧ u.2.1 = r)) →
      getRun (us.foldl applyUpd d) p r = getRun d p r := by
  induction us with
  | nil =>
    intro d _
    rfl
  | cons u us ih =>
    intro d h
    simp only [List.foldl_cons]
    rw [ih _ (fun v hv => h v (List.mem_cons_of_mem u hv))]
    show getRun (setRunText d u.1 u.2.1 u.2.2) p r = getRun d p r
    rw [getRun_setRunText, if_neg (h u (List.mem_cons_self u us))]

lemma foldl_applyUpd_format (us : List (ℕ × ℕ × List Char)) (q s : ℕ) :
    ∀ d : List DocxPara,
      (getRun (us.foldl applyUpd d) q s).map runFormat
        = (getRun d q s).map runFormat := by
  induction us with
  | nil =>
    intro d
    rfl
  | cons u us ih =>
    intro d
    simp only [List.foldl_cons]
    rw [ih]
    show (getRun (setRunText d u.1 u.2.1 u.2.2) q s).map runFormat = _
    rw [getRun_setRunText]
    split
    · cases getRun d q s <;> simp [runFormat]
    · rfl

lemma foldl_applyUpd_shape (us : List (ℕ × ℕ × List Char)) (q : ℕ) :
    ∀ d : List DocxPara,
      ((us.foldl applyUpd d).get? q).map paraShape
        = (d.get? q).map paraShape := by
  induction us with
  | nil =>
    intro d
    rfl
  | cons u us ih =>
    intro d
    simp only [List.foldl_cons]
    rw [ih]
    show ((setRunText d u.1 u.2.1 u.2.2).get? q).map paraShape = _
    rw [setRunText_get?]
    split
    · cases d.get? q <;> simp [paraShape, length_setRunTextInRuns]
    · rfl

/-! ## Claim C8: non-destructive injection -/

/-- Claim C8: injection modifies only the text of the targeted
(paragraph, run) coordinates.  Every run outside the target set is
unchanged as a whole record; the formatting properties (bold, italic, font)
of EVERY run — targeted or not — are preserved, as are every paragraph's
style name, alignment and run count. -/
theorem claim_C8_theorem (paras : List DocxPara) (rw : Rewrites)
    (tol : PyRat) (p r : ℕ)
    (hout : (p, r) ∉ targetCoords paras rw tol) :
    getRun (inject_docx_rewrites paras rw tol) p r = getRun paras p r
    ∧ (∀ q s, (getRun (inject_docx_rewrites paras rw tol) q s).map runFormat
        = (getRun paras q s).map runFormat)
    ∧ (∀ q, ((inject_docx_rewrites paras rw tol).get? q).map paraShape
        = (paras.get? q).map paraShape) := by
  refine ⟨?_, fun q s => foldl_applyUpd_format _ q s paras,
          fun q => foldl_applyUpd_shape _ q paras⟩
  apply foldl_applyUpd_untouched
  intro u hu hc
  apply hout
  unfold targetCoords
  have : (u.1, u.2.1) = (p, r) := by
    rw [hc.1, hc.2]
  rw [← this]
  exact List.mem_map_of_mem _ hu

/-- Witness for `claim_C8_theorem`: an untargeted run of the concrete
document is untouched by a one-replacement injection. -/
theorem claim_C8_witness :
    getRun (inject_docx_rewrites exDocxDoc ⟨[], ["new text here!".toList]⟩
        tolDefault) 2 0
      = getRun exDocxDoc 2 0 :=
  (claim_C8_theorem exDocxDoc ⟨[], ["new text here!".toList]⟩ tolDefault 2 0
    (by decide)).1

/-! ## Extraction invariants -/


lemma docxRunEntries_inv :
    ∀ (runs : List DocxRun) (pidx ri : ℕ) (e : DocxEntry),
    e ∈ docxRunEntries pidx ri runs →
    e.para_idx = pidx ∧ ∃ j run, runs.get? j = some run ∧ e.run_idx = ri + j
      ∧ run.text = e.text ∧ (pyStrip run.text).isEmpty = false := by
  intro runs
  induction runs with
  | nil =>
    intro pidx ri e he
    simp [docxRunEntries] at he
  | cons a as ih =>
    intro pidx ri e he
    by_cases ha : (pyStrip a.text).isEmpty = true
    · rw [docxRunEntries, if_pos ha] at he
      obtain ⟨hp, j, run, hg, hr, ht, hs⟩ := ih pidx (ri + 1) e he
      exact ⟨hp, j + 1, run, by simpa using hg, by omega, ht, hs⟩
    · rw [docxRunEntries, if_neg ha] at he
      rcases List.mem_cons.mp he with h | h
      · refine ⟨by rw [h], 0, a, rfl, by simp [h], by rw [h], ?_⟩
        simpa using ha
      · obtain ⟨hp, j, run, hg, hr, ht, hs⟩ := ih pidx (ri + 1) e h
        exact ⟨hp, j + 1, run, by simpa using hg, by omega, ht, hs⟩

lemma extractGo_inv :
    ∀ (ps : List DocxPara) (idx : ℕ) (cur : Option Sec) (e : DocxEntry),
    (e ∈ (extractGo ps idx cur).1 ∨ e ∈ (extractGo ps idx cur).2.1) →
    ∃ k para run, ps.get? k = some para
      ∧ para.runs.get? e.run_idx = some run
      ∧ e.para_idx = idx + k ∧ run.text = e.text
      ∧ (pyStrip run.text).isEmpty = false := by
  intro ps
  induction ps with
  | nil =>
    intro idx cur e he
    rcases he with h | h <;> simp [extractGo] at h
  | cons p ps ih =>
    intro idx cur e he
    simp only [extractGo] at he
    by_cases h1 : (pyStrip (paraText p)).isEmpty = true
    · rw [if_pos h1] at he
      dsimp only at he
      obtain ⟨k, para, run, hk, hrun, hpar, ht, hs⟩ := ih (idx + 1) cur e he
      exact ⟨k + 1, para, run, by simpa using hk, hrun, by omega, ht, hs⟩
    · rw [if_neg h1] at he
      by_cases h2 : (is_heading p
          || (decide ((pyStrip (paraText p)).length < 60)
              && HEADING_UNION.contains (pyLower (pyStrip (paraText p)))))
          = true
      · rw [if_pos h2] at he
        dsimp only at he
        obtain ⟨k, para, run, hk, hrun, hpar, ht, hs⟩ := ih (idx + 1) _ e he
        exact ⟨k + 1, para, run, by simpa using hk, hrun, by omega, ht, hs⟩
      · rw [if_neg h2] at he
        cases cur with
        | none =>
          dsimp only at he
          obtain ⟨k, para, run, hk, hrun, hpar, ht, hs⟩ :=
            ih (idx + 1) none e he
          exact ⟨k + 1, para, run, by simpa using hk, hrun, by omega, ht, hs⟩
        | some sec =>
          cases sec with
          | summary =>
            dsimp only at he
            rcases he with h | h
            · rcases List.mem_append.mp h with hc | hrec
              · obtain ⟨hp, j, run, hg, hr, ht, hs⟩ :=
                  docxRunEntries_inv p.runs idx 0 e hc
                refine ⟨0, p, run, rfl, ?_, by omega, ht, hs⟩
                rw [hr]
                simpa using hg
              · obtain ⟨k, para, run, hk, hrun, hpar, ht, hs⟩ :=
                  ih (idx + 1) (some Sec.summary) e (Or.inl hrec)
                exact ⟨k + 1, para, run, by simpa using hk, hrun, by omega,
                       ht, hs⟩
            · obtain ⟨k, para, run, hk, hrun, hpar, ht, hs⟩ :=
                ih (idx + 1) (some Sec.summary) e (Or.inr h)
              exact ⟨k + 1, para, run, by simpa using hk, hrun, by omega,
                     ht, hs⟩
          | experience =>
            dsimp only at he
            rcases he with h | h
            · obtain ⟨k, para, run, hk, hrun, hpar, ht, hs⟩ :=
                ih (idx + 1) (some Sec.experience) e (Or.inl h)
              exact ⟨k + 1, para, run, by simpa using hk, hrun, by omega,
                     ht, hs⟩
            · rcases List.mem_append.mp h with hc | hrec
              · obtain ⟨hp, j, run, hg, hr, ht, hs⟩ :=
                  docxRunEntries_inv p.runs idx 0 e hc
                refine ⟨0, p, run, rfl, ?_, by omega, ht, hs⟩
                rw [hr]
                simpa using hg
              · obtain ⟨k, para, run, hk, hrun, hpar, ht, hs⟩ :=
                  ih (idx + 1) (some Sec.experience) e (Or.inr hrec)
                exact ⟨k + 1, para, run, by simpa using hk, hrun, by omega,
                       ht, hs⟩

lemma goPdf_inv :
    ∀ (L : List (ℕ × ℕ × PdfLine)) (cur : Option Sec) (e : PdfEntry),
    (e ∈ (goPdf L cur).1 ∨ e ∈ (goPdf L cur).2.1) →
    (∃ t ∈ L, e.page = t.1) ∧ (pyStrip e.text).isEmpty = false := by
  intro L
  induction L with
  | nil =>
    intro cur e he
    rcases he with h | h <;> simp [goPdf] at h
  | cons t rest ih =>
    intro cur e he
    simp only [goPdf] at he
    cases hm : match_section
        (pyStrip ((t.2.2.spans.map PdfSpan.text).flatten)) with
    | some m =>
      rw [hm] at he
      dsimp only at he
      obtain ⟨⟨u, hu, hp⟩, hs⟩ := ih _ e he
      exact ⟨⟨u, List.mem_cons_of_mem _ hu, hp⟩, hs⟩
    | none =>
      rw [hm] at he
      cases cur with
      | none =>
        dsimp only at he
        obtain ⟨⟨u, hu, hp⟩, hs⟩ := ih none e he
        exact ⟨⟨u, List.mem_cons_of_mem _ hu, hp⟩, hs⟩
      | some sec =>
        cases sec with
        | summary =>
          dsimp only at he
          rcases he with h | h
          · rcases List.mem_append.mp h with hc | hrec
            · obtain ⟨s, hsf, rfl⟩ := List.mem_map.mp hc
              have hpred := (List.mem_filter.mp hsf).2
              refine ⟨⟨t, List.mem_cons_self t rest, rfl⟩, ?_⟩
              simpa [spanEntry] using hpred
            · obtain ⟨⟨u, hu, hp⟩, hs⟩ :=
                ih (some Sec.summary) e (Or.inl hrec)
              exact ⟨⟨u, List.mem_cons_of_mem _ hu, hp⟩, hs⟩
          · obtain ⟨⟨u, hu, hp⟩, hs⟩ := ih (some Sec.summary) e (Or.inr h)
            exact ⟨⟨u, List.mem_cons_of_mem _ hu, hp⟩, hs⟩
        | experience =>
          dsimp only at he
          rcases he with h | h
          · obtain ⟨⟨u, hu, hp⟩, hs⟩ := ih (some Sec.experience) e (Or.inl h)
            exact ⟨⟨u, List.mem_cons_of_mem _ hu, hp⟩, hs⟩
          · rcases List.mem_append.mp h with hc | hrec
            · obtain ⟨s, hsf, rfl⟩ := List.mem_map.mp hc
              have hpred := (List.mem_filter.mp hsf).2
              refine ⟨⟨t, List.mem_cons_self t rest, rfl⟩, ?_⟩
              simpa [spanEntry] using hpred
            · obtain ⟨⟨u, hu, hp⟩, hs⟩ :=
                ih (some Sec.experience) e (Or.inr hrec)
              exact ⟨⟨u, List.mem_cons_of_mem _ hu, hp⟩, hs⟩

lemma blockLines_page :
    ∀ (bs : List PdfBlock) (pn bi : ℕ) (t : ℕ × ℕ × PdfLine),
    t ∈ blockLines pn bi bs → t.1 = pn := by
  intro bs
  induction bs with
  | nil =>
    intro pn bi t ht
    simp [blockLines] at ht
  | cons b rest ih =>
    intro pn bi t ht
    rw [blockLines] at ht
    rcases List.mem_append.mp ht with h | h
    · split at h
      · obtain ⟨l, _, rfl⟩ := List.mem_map.mp h
        rfl
      · simp at h
    · exact ih pn (bi + 1) t h

lemma pagesLines_page :
    ∀ (pgs : List PdfPage) (pn : ℕ) (t : ℕ × ℕ × PdfLine),
    t ∈ pagesLines pn pgs → pn ≤ t.1 ∧ t.1 < pn + pgs.length := by
  intro pgs
  induction pgs with
  | nil =>
    intro pn t ht
    simp [pagesLines] at ht
  | cons pg rest ih =>
    intro pn t ht
    rw [pagesLines] at ht
    rcases List.mem_append.mp ht with h | h
    · have := blockLines_page pg.blocks pn 0 t h
      simp [this]
    · have := ih (pn + 1) t h
      simp only [List.length_cons]
      omega

/-! ## Claim C10: recorded spans are never whitespace-only -/

/-- Claim C10: every span recorded in a summary or experience list by
either extractor has text whose Python `strip()` is nonempty; whitespace-only
runs and spans are filtered out before recording (and hence, since both
injectors only touch recorded spans, are never redacted or overwritten). -/
theorem claim_C10_theorem :
    (∀ (paras : List DocxPara) (e : DocxEntry),
      e ∈ (extract_docx_sections paras).summary
          ++ (extract_docx_sections paras).experience →
      (pyStrip e.text).isEmpty = false)
    ∧ (∀ (d : List PdfPage) (e : PdfEntry),
      e ∈ (extract_pdf_sections d).summary
          ++ (extract_pdf_sections d).experience →
      (pyStrip e.text).isEmpty = false) := by
  constructor
  · intro paras e he
    have hmem : e ∈ (extractGo paras 0 none).1
        ∨ e ∈ (extractGo paras 0 none).2.1 := by
      rcases List.mem_append.mp he with h | h
      · exact Or.inl (by simpa [extract_docx_sections] using h)
      · exact Or.inr (by simpa [extract_docx_sections] using h)
    obtain ⟨k, para, run, _, _, _, ht, hs⟩ := extractGo_inv paras 0 none e hmem
    rw [ht] at hs
    exact hs
  · intro d e he
    have hmem : e ∈ (goPdf (pagesLines 0 d) none).1
        ∨ e ∈ (goPdf (pagesLines 0 d) none).2.1 := by
      rcases List.mem_append.mp he with h | h
      · exact Or.inl (by simpa [extract_pdf_sections] using h)
      · exact Or.inr (by simpa [extract_pdf_sections] using h)
    exact (goPdf_inv (pagesLines 0 d) none e hmem).2

/-- Witness for `claim_C10_theorem` at concrete recorded spans of the two
concrete documents. -/
theorem claim_C10_witness :
    (pyStrip ("Alpha line one".toList)).isEmpty = false
    ∧ (pyStrip ("Led team".toList)).isEmpty = false :=
  ⟨claim_C10_theorem.1 exDocxDoc ⟨1, 0, "Alpha line one".toList⟩ (by decide),
   claim_C10_theorem.2 exPdfDoc
     ⟨0, ⟨0, 20, 100, 30⟩, "Led team".toList, 11, "helv".toList, 0, 0,
      (0, 30)⟩ (by decide)⟩

/-! ## Claim C6: indexing at injection time -/

lemma getRun_applyUpd_none (d : List DocxPara) (u : ℕ × ℕ × List Char)
    (q s : ℕ) :
    (getRun (applyUpd d u) q s = none) ↔ (getRun d q s = none) := by
  show getRun (setRunText d u.1 u.2.1 u.2.2) q s = none ↔ _
  rw [getRun_setRunText]
  split
  · cases getRun d q s <;> simp
  · exact Iff.rfl

lemma applyChecked_ok :
    ∀ (us : List (ℕ × ℕ × List Char)) (d : List DocxPara),
    (∀ u ∈ us, getRun d u.1 u.2.1 ≠ none) →
    applyChecked us d = Except.ok (us.foldl applyUpd d) := by
  intro us
  induction us with
  | nil =>
    intro d _
    rfl
  | cons u us ih =>
    intro d h
    have hu := h u (List.mem_cons_self u us)
    cases hg : getRun d u.1 u.2.1 with
    | none => exact absurd hg hu
    | some run =>
      simp only [applyChecked, hg, List.foldl_cons]
      exact ih (applyUpd d u) (fun v hv h0 =>
        h v (List.mem_cons_of_mem u hv)
          ((getRun_applyUpd_none d u v.1 v.2.1).mp h0))

lemma docxUpdates_inRange (paras : List DocxPara) (rwS rwE : List (List Char))
    (tol : PyRat) :
    ∀ u ∈ docxUpdates paras rwS rwE tol, getRun paras u.1 u.2.1 ≠ none := by
  intro u hu
  have hentry : ∃ e : DocxEntry,
      (e ∈ (extract_docx_sections paras).summary
        ∨ e ∈ (extract_docx_sections paras).experience)
      ∧ u.1 = e.para_idx ∧ u.2.1 = e.run_idx := by
    simp only [docxUpdates] at hu
    rcases List.mem_append.mp hu with h | h
    · obtain ⟨pair, hp, rfl⟩ := List.mem_map.mp h
      exact ⟨pair.1, Or.inl (List.of_mem_zip hp).1, rfl, rfl⟩
    · obtain ⟨pair, hp, rfl⟩ := List.mem_map.mp h
      exact ⟨pair.1, Or.inr (List.of_mem_zip hp).1, rfl, rfl⟩
  obtain ⟨e, hm, h1, h2⟩ := hentry
  have hmem : e ∈ (extractGo paras 0 none).1
      ∨ e ∈ (extractGo paras 0 none).2.1 := by
    rcases hm with h | h
    · exact Or.inl (by simpa [extract_docx_sections] using h)
    · exact Or.inr (by simpa [extract_docx_sections] using h)
  obtain ⟨k, para, run, hk, hrun, hpar, _, _⟩ :=
    extractGo_inv paras 0 none e hmem
  have hval : getRun paras u.1 u.2.1 = some run := by
    rw [h1, h2, hpar]
    unfold getRun
    simp only [Nat.zero_add]
    rw [hk]
    simpa using hrun
  simp [hval]

lemma insertOverlay_length (d : List PdfPage) (p : ℕ) (ov : PdfOverlay) :
    (insertOverlay d p ov).length = d.length := by
  induction d generalizing p with
  | nil => rfl
  | cons a as ih =>
    cases p with
    | zero => rfl
    | succ p => simp [insertOverlay, ih]

lemma overlayChecked_ok :
    ∀ (us : List (ℕ × PdfOverlay)) (d : List PdfPage),
    (∀ u ∈ us, u.1 < d.length) →
    overlayChecked us d
      = Except.ok (us.foldl (fun acc u => insertOverlay acc u.1 u.2) d) := by
  intro us
  induction us with
  | nil =>
    intro d _
    rfl
  | cons u us ih =>
    intro d h
    rw [overlayChecked, if_pos (h u (List.mem_cons_self u us)),
        List.foldl_cons]
    exact ih _ (fun v hv => by
      rw [insertOverlay_length]
      exact h v (List.mem_cons_of_mem u hv))

lemma applyReds_length (reds : List (ℕ × Rect)) :
    ∀ (d : List PdfPage) (pn : ℕ), (applyReds reds pn d).length = d.length := by
  intro d
  induction d with
  | nil =>
    intro pn
    rfl
  | cons a as ih =>
    intro pn
    simp [applyReds, ih]

lemma overlayUpdates_inRange (d : List PdfPage) (rwS rwE : List (List Char))
    (tol : PyRat) :
    ∀ u ∈ overlayUpdates (extract_pdf_sections d) rwS rwE tol,
      u.1 < d.length := by
  intro u hu
  have hentry : ∃ e : PdfEntry,
      (e ∈ (extract_pdf_sections d).summary
        ∨ e ∈ (extract_pdf_sections d).experience)
      ∧ u.1 = e.page := by
    simp only [overlayUpdates] at hu
    rcases List.mem_append.mp hu with h | h
    · obtain ⟨pair, hp, rfl⟩ := List.mem_map.mp h
      exact ⟨pair.1, Or.inl (List.of_mem_zip hp).1, rfl⟩
    · obtain ⟨pair, hp, rfl⟩ := List.mem_map.mp h
      exact ⟨pair.1, Or.inr (List.of_mem_zip hp).1, rfl⟩
  obtain ⟨e, hm, h1⟩ := hentry
  have hmem : e ∈ (goPdf (pagesLines 0 d) none).1
      ∨ e ∈ (goPdf (pagesLines 0 d) none).2.1 := by
    rcases hm with h | h
    · exact Or.inl (by simpa [extract_pdf_sections] using h)
    · exact Or.inr (by simpa [extract_pdf_sections] using h)
  obtain ⟨⟨t, ht, hp⟩, _⟩ := goPdf_inv (pagesLines 0 d) none e hmem
  have hb := pagesLines_page d 0 t ht
  rw [h1, hp]
  omega

/-- Claim C6 (amended): both injectors re-derive their span lists by
re-running extraction on their own input, so every index they dereference is
in range by construction and injection never raises at all: with Python's
indexing semantics made explicit, the checked run of either injection loop
returns `Except.ok` of the unchecked result on EVERY document and rewrite
set.  No `StructuralMismatch` error exists anywhere in the code. -/
theorem claim_C6_theorem (paras : List DocxPara) (rw : Rewrites)
    (tol : PyRat) (d : List PdfPage) :
    applyChecked (docxUpdates paras rw.summary rw.experience tol) paras
      = Except.ok (inject_docx_rewrites paras rw tol)
    ∧ overlayChecked
        (overlayUpdates (extract_pdf_sections d) rw.summary rw.experience tol)
        (applyReds
          (pdfRedactions (extract_pdf_sections d) rw.summary rw.experience)
          0 d)
      = Except.ok (inject_pdf_rewrites d rw tol) := by
  constructor
  · exact applyChecked_ok _ paras
      (docxUpdates_inRange paras rw.summary rw.experience tol)
  · rw [overlayChecked_ok _ _ (fun u hu => by
      rw [applyReds_length]
      exact overlayUpdates_inRange d rw.summary rw.experience tol u hu)]
    rfl

/-- Claim C6, counterexample: when an out-of-range span coordinate IS
confronted with a document (possible only by supplying the span list
independently, since the injectors re-derive theirs), Python list indexing
raises a plain `IndexError` — not the `StructuralMismatch` the claim names,
which no code in the repository defines or raises. -/
theorem claim_C6_counterexample :
    applyChecked [(0, 0, ['x'])] ([] : List DocxPara)
      = Except.error PyErr.indexError
    ∧ overlayChecked [(2, ⟨(0, 0), [], [], 0, (0, 0, 0)⟩)] exPdfDoc
      = Except.error PyErr.indexError
    ∧ PyErr.indexError ≠ PyErr.structuralMismatch := by
  refine ⟨rfl, rfl, by decide⟩
